import Mathlib

/-!
Verification of the fake-py-mcp adaptation layer (fakepy_mcp.py).

The development shallowly embeds the core of `fakepy_mcp.py`:

* the parameter-type admissibility check `is_supported_type`,
* the parameter filter `get_supported_params`,
* the return-type classifier `get_return_type`,
* the result serialiser `serialise_result` (with a base64 codec),
* the synthesized wrapper `tool_fn` with its argument-binding loop,
* the registration pass `register_fakepy_tools`.

Python machine types are modelled by explicit inductives: declared types
by `PyType` (unions are flat lists of atoms, matching Python typing
normalisation), runtime values by `PyVal`, raised exceptions by
`PyException` (carrying class name and message).  Functions that can
raise return `Except`.
-/

namespace FakePyMcp

/-- An atomic Python type object, as it can occur as a typing union arm or
as a plain parameter type.  `aOther` covers every class not special-cased
by the source (the source only tests membership in its simple-type set). -/
inductive PyAtom where
  | aInt
  | aStr
  | aFloat
  | aBool
  | aNoneType
  | aList
  | aDict
  | aOther : String → PyAtom
deriving DecidableEq, Repr

/-- A declared Python parameter type: either a plain (non-union) type, or
a `typing.Union` applied to a list of arms.  Python's typing module
flattens nested unions, so arms are atoms. -/
inductive PyType where
  | atom : PyAtom → PyType
  | union : List PyAtom → PyType
deriving DecidableEq, Repr

/-- The module-level `_SIMPLE_TYPES = {int, str, float, bool}`. -/
def SIMPLE_TYPES : List PyAtom := [.aInt, .aStr, .aFloat, .aBool]

/-- Embedding of `is_supported_type` (fakepy_mcp.py lines 123-133).
`get_origin(typ) is Union` corresponds to the `union` constructor;
`get_args` yields the arm list; the non-union fallthrough is
`typ in _SIMPLE_TYPES`.  The arm selection mirrors
`args[0] if args[1] is type(None) else args[1]`. -/
def is_supported_type : PyType → Bool
  | .union args =>
      if args.length = 2 ∧ .aNoneType ∈ args then
        (if args.getD 1 .aNoneType = .aNoneType then args.getD 0 .aNoneType
         else args.getD 1 .aNoneType) ∈ SIMPLE_TYPES
      else false
  | .atom a => a ∈ SIMPLE_TYPES

/-- Characterisation written from the specification's words: a type is
wire-safe exactly when it is one of the four simple scalars, or a
two-armed union of the absence marker with exactly one simple scalar. -/
def wire_safe_spec (t : PyType) : Prop :=
  (∃ a ∈ SIMPLE_TYPES, t = .atom a) ∨
  (∃ a ∈ SIMPLE_TYPES, t = .union [a, .aNoneType] ∨ t = .union [.aNoneType, a])

/-- C5: `is_supported_type` returns true for a declared type exactly when
it is one of {integer, string, real, boolean} or a two-armed union of the
absence marker with exactly one of those simple types; every other shape
yields false. -/
theorem is_supported_type_iff_wire_safe (t : PyType) :
    is_supported_type t = true ↔ wire_safe_spec t := by
  cases t with
  | atom a =>
      simp only [is_supported_type, wire_safe_spec, decide_eq_true_eq]
      constructor
      · intro h
        exact Or.inl ⟨a, h, rfl⟩
      · rintro (⟨b, hb, hab⟩ | ⟨b, _, hab | hab⟩) <;> first
          | (injection hab with h; exact h ▸ hb)
          | cases hab
  | union args =>
      match args with
      | [] => simp [is_supported_type, wire_safe_spec]
      | [a] => simp [is_supported_type, wire_safe_spec]
      | a :: b :: c :: rest =>
          simp only [is_supported_type, wire_safe_spec]
          constructor
          · intro h
            rw [if_neg (by simp)] at h
            exact absurd h (by simp)
          · rintro (⟨x, _, hx⟩ | ⟨x, _, hx | hx⟩) <;> cases hx
      | [a, b] =>
          constructor
          · intro h
            simp only [is_supported_type] at h
            by_cases hmem : PyAtom.aNoneType ∈ [a, b]
            · rw [if_pos ⟨rfl, hmem⟩] at h
              simp only [List.getD_cons_succ, List.getD_cons_zero] at h
              by_cases hb : b = .aNoneType
              · rw [if_pos hb] at h
                exact Or.inr ⟨a, by simpa using h, Or.inl (by rw [hb])⟩
              · rw [if_neg hb] at h
                have ha : a = PyAtom.aNoneType := by
                  rcases List.mem_cons.mp hmem with h1 | h1
                  · exact h1.symm
                  · exact absurd (List.mem_singleton.mp h1).symm hb
                exact Or.inr ⟨b, by simpa using h, Or.inr (by rw [ha])⟩
            · rw [if_neg (fun hc => hmem hc.2)] at h
              cases h
          · rintro (⟨x, hx, hax⟩ | ⟨x, hx, hax | hax⟩)
            · cases hax
            · rw [hax]
              simp only [is_supported_type]
              rw [if_pos ⟨rfl, by simp⟩]
              simpa using hx
            · rw [hax]
              have hxne : x ≠ PyAtom.aNoneType := by
                rintro rfl
                exact absurd hx (by decide)
              simp only [is_supported_type]
              rw [if_pos ⟨rfl, by simp⟩]
              simp only [List.getD_cons_succ, List.getD_cons_zero]
              rw [if_neg hxne]
              simpa using hx

/-- A runtime Python value, covering the kinds the adaptation layer
dispatches on: byte sequences (each element a byte value), strings,
integers, floats (carried by their textual rendering, never computed
with), booleans, None, UUID objects (carried by their canonical string
form), date and datetime objects (year, month, day[, hour, minute,
second]), tuples and lists. -/
inductive PyVal where
  | vBytes : List Nat → PyVal
  | vStr : String → PyVal
  | vInt : Int → PyVal
  | vFloat : String → PyVal
  | vBool : Bool → PyVal
  | vNone : PyVal
  | vUuid : String → PyVal
  | vDate : Nat → Nat → Nat → PyVal
  | vDateTime : Nat → Nat → Nat → Nat → Nat → Nat → PyVal
  | vTuple : List PyVal → PyVal
  | vList : List PyVal → PyVal

/-- A raised Python exception: its class name and its message
(`str(e)` yields the message). -/
structure PyException where
  ty : String
  msg : String
deriving DecidableEq, Repr

/-- The kind of a declared parameter, mirroring
`inspect.Parameter.kind`. -/
inductive ParamKind where
  | POSITIONAL_ONLY
  | POSITIONAL_OR_KEYWORD
  | VAR_POSITIONAL
  | KEYWORD_ONLY
  | VAR_KEYWORD
deriving DecidableEq, Repr

/-- An `inspect.Parameter`: name, kind, declared type (`ann = none`
models `Parameter.empty`, i.e. the parameter is untyped; the Python
attribute is called `annotation`), and default value (`none` models
`Parameter.empty`, i.e. no default). -/
structure Parameter where
  name : String
  kind : ParamKind
  ann : Option PyType
  default : Option PyVal

/-- Python's `str.lower`, on the character-list view of strings. -/
def py_lower (s : String) : String :=
  String.mk (s.data.map Char.toLower)

/-- Python's `str.startswith`, on the character-list view of strings. -/
def py_startswith (s pre : String) : Bool :=
  pre.data.isPrefixOf s.data

/-- Embedding of `get_supported_params` (fakepy_mcp.py lines 136-150):
iterate the declared parameters in order, skipping variadic collectors,
parameters whose lowercased name is "options", untyped parameters, and
parameters whose declared type is not supported; append the qualifying
ones as (name, parameter) pairs. -/
def get_supported_params : List Parameter → List (String × Parameter)
  | [] => []
  | p :: rest =>
    if p.kind = .VAR_POSITIONAL ∨ p.kind = .VAR_KEYWORD then
      get_supported_params rest
    else if py_lower p.name = "options" then
      get_supported_params rest
    else
      match p.ann with
      | none => get_supported_params rest
      | some t =>
          if is_supported_type t then (p.name, p) :: get_supported_params rest
          else get_supported_params rest

/-- Written from the specification's words: a parameter qualifies iff it
is not a variadic collector, its lowercase name is not "options", it has
a declared type, and that type is wire-safe. -/
def qualifies (p : Parameter) : Bool :=
  !(p.kind = ParamKind.VAR_POSITIONAL : Bool) &&
  !(p.kind = ParamKind.VAR_KEYWORD : Bool) &&
  !(py_lower p.name = "options" : Bool) &&
  (match p.ann with
   | none => false
   | some t => is_supported_type t)

/-- C6: `get_supported_params` returns exactly the qualifying parameters
as (name, parameter) pairs in their original relative order, and the
parameter component of the result is an order-preserving subset (a
sublist) of the input. -/
theorem get_supported_params_eq_filter (ps : List Parameter) :
    get_supported_params ps = (ps.filter qualifies).map (fun p => (p.name, p)) ∧
    ((get_supported_params ps).map Prod.snd).Sublist ps := by
  have hmain : ∀ l : List Parameter,
      get_supported_params l = (l.filter qualifies).map (fun p => (p.name, p)) := by
    intro l
    induction l with
    | nil => rfl
    | cons p rest ih =>
        by_cases hvar : p.kind = ParamKind.VAR_POSITIONAL ∨ p.kind = ParamKind.VAR_KEYWORD
        · have hq : qualifies p = false := by
            rcases hvar with h | h <;> simp [qualifies, h]
          simp [get_supported_params, if_pos hvar, List.filter_cons, hq, ih]
        · by_cases hopt : py_lower p.name = "options"
          · have hq : qualifies p = false := by
              simp [qualifies, hopt]
            simp [get_supported_params, if_neg hvar, if_pos hopt,
              List.filter_cons, hq, ih]
          · match hann : p.ann with
            | none =>
                have hq : qualifies p = false := by
                  simp [qualifies, hann]
                simp [get_supported_params, if_neg hvar, if_neg hopt, hann,
                  List.filter_cons, hq, ih]
            | some t =>
                by_cases hsup : is_supported_type t
                · have hq : qualifies p = true := by
                    push_neg at hvar
                    simp [qualifies, hvar.1, hvar.2, hopt, hann, hsup]
                  simp [get_supported_params, if_neg hvar, if_neg hopt, hann,
                    hsup, List.filter_cons, hq, ih]
                · have hq : qualifies p = false := by
                    simp [qualifies, hann, hsup]
                  simp only [get_supported_params, if_neg hvar, if_neg hopt, hann]
                  rw [if_neg hsup]
                  simp [List.filter_cons, hq, ih]
  refine ⟨hmain ps, ?_⟩
  rw [hmain ps, List.map_map]
  have : (Prod.snd ∘ fun p : Parameter => (p.name, p)) = id := rfl
  rw [this, List.map_id]
  exact List.filter_sublist ps

/-- The wire type tags the classifier can produce, standing for the
Python schema objects `str`, `int`, `float`, `bool`, `List[str]` and
`List[float]` returned by `get_return_type`. -/
inductive WireType where
  | wStr
  | wInt
  | wFloat
  | wBool
  | wListStr
  | wListFloat
deriving DecidableEq, Repr

/-- The fixed binary-document-format name set used by both
`get_return_type` and `serialise_result`. -/
def BINARY_FORMAT_NAMES : List String :=
  ["bmp", "docx", "eml", "epub", "gif", "jpg", "odt", "pdf", "png", "ppm",
   "rtf", "svg", "tar", "tif", "wav", "zip"]

/-- The fixed pluralized text-generator name set of `get_return_type`. -/
def LIST_STR_NAMES : List String :=
  ["first_names", "last_names", "names", "usernames", "paragraphs",
   "sentences", "slugs", "texts", "words"]

/-- Python's `str.endswith`, on the character-list view of strings. -/
def py_endswith (s suffix : String) : Bool :=
  suffix.data.isSuffixOf s.data

/-- Embedding of `get_return_type` (fakepy_mcp.py lines 44-80).  The
source reads `method.__name__`; the embedding takes that name directly. -/
def get_return_type (name : String) : WireType :=
  if name ∈ BINARY_FORMAT_NAMES then .wStr
  else if py_endswith name "_file" then .wStr
  else if name = "latitude_longitude" then .wListFloat
  else if name ∈ LIST_STR_NAMES then .wListStr
  else if name = "uuid" then .wStr
  else if name = "date" then .wStr
  else if name = "date_time" then .wStr
  else if name = "latitude" ∨ name = "longitude" then .wFloat
  else if name = "pybool" then .wBool
  else if name = "pyint" ∨ name = "year" then .wInt
  else .wStr

/-- The specification's ordered return-type policy, written as a rule
table: each rule is a predicate on the name together with the tag it
assigns, and the first matching rule wins, with string as the default. -/
def return_type_rules : List ((String → Bool) × WireType) :=
  [(fun n => decide (n ∈ BINARY_FORMAT_NAMES), .wStr),
   (fun n => py_endswith n "_file", .wStr),
   (fun n => n == "latitude_longitude", .wListFloat),
   (fun n => decide (n ∈ LIST_STR_NAMES), .wListStr),
   (fun n => n == "uuid" || n == "date" || n == "date_time", .wStr),
   (fun n => n == "latitude" || n == "longitude", .wFloat),
   (fun n => n == "pybool", .wBool),
   (fun n => n == "pyint" || n == "year", .wInt)]

/-- First-match evaluation of a rule table, defaulting to string. -/
def firstMatch : List ((String → Bool) × WireType) → String → WireType
  | [], _ => .wStr
  | (p, t) :: rest, n => if p n then t else firstMatch rest n

/-- C7: `get_return_type` is a total deterministic function of the name
alone and agrees everywhere with the specification's ordered first-match
policy. -/
theorem get_return_type_eq_policy (name : String) :
    get_return_type name = firstMatch return_type_rules name := by
  by_cases h1 : name ∈ BINARY_FORMAT_NAMES
  · simp [get_return_type, firstMatch, return_type_rules, h1]
  · by_cases h2 : py_endswith name "_file" = true
    · simp [get_return_type, firstMatch, return_type_rules, h1, h2]
    · by_cases h3 : name = "latitude_longitude"
      · subst h3; decide
      · by_cases h4 : name ∈ LIST_STR_NAMES
        · simp [get_return_type, firstMatch, return_type_rules, h1, h2, h3, h4]
        · by_cases h5 : name = "uuid"
          · subst h5; decide
          · by_cases h6 : name = "date"
            · subst h6; decide
            · by_cases h7 : name = "date_time"
              · subst h7; decide
              · by_cases h8 : name = "latitude"
                · subst h8; decide
                · by_cases h9 : name = "longitude"
                  · subst h9; decide
                  · by_cases h10 : name = "pybool"
                    · subst h10; decide
                    · by_cases h11 : name = "pyint"
                      · subst h11; decide
                      · by_cases h12 : name = "year"
                        · subst h12; decide
                        · simp [get_return_type, firstMatch, return_type_rules,
                            h1, h2, h3, h4, h5, h6, h7, h8, h9, h10, h11, h12]

/-- The standard base64 alphabet, in index order. -/
def B64_ALPHABET : List Char :=
  "ABCDEFGHIJKLMNOPQRSTUVWXYZabcdefghijklmnopqrstuvwxyz0123456789+/".data

/-- The character standing for the 6-bit value `n`. -/
def encodeSextet (n : Nat) : Char :=
  B64_ALPHABET.getD n 'A'

/-- The 6-bit value of a base64 alphabet character (the usual inverse
table); `none` for any character outside the alphabet, padding included. -/
def decodeSextet (c : Char) : Option Nat :=
  match c with
  | 'A' => some 0 | 'B' => some 1 | 'C' => some 2 | 'D' => some 3
  | 'E' => some 4 | 'F' => some 5 | 'G' => some 6 | 'H' => some 7
  | 'I' => some 8 | 'J' => some 9 | 'K' => some 10 | 'L' => some 11
  | 'M' => some 12 | 'N' => some 13 | 'O' => some 14 | 'P' => some 15
  | 'Q' => some 16 | 'R' => some 17 | 'S' => some 18 | 'T' => some 19
  | 'U' => some 20 | 'V' => some 21 | 'W' => some 22 | 'X' => some 23
  | 'Y' => some 24 | 'Z' => some 25 | 'a' => some 26 | 'b' => some 27
  | 'c' => some 28 | 'd' => some 29 | 'e' => some 30 | 'f' => some 31
  | 'g' => some 32 | 'h' => some 33 | 'i' => some 34 | 'j' => some 35
  | 'k' => some 36 | 'l' => some 37 | 'm' => some 38 | 'n' => some 39
  | 'o' => some 40 | 'p' => some 41 | 'q' => some 42 | 'r' => some 43
  | 's' => some 44 | 't' => some 45 | 'u' => some 46 | 'v' => some 47
  | 'w' => some 48 | 'x' => some 49 | 'y' => some 50 | 'z' => some 51
  | '0' => some 52 | '1' => some 53 | '2' => some 54 | '3' => some 55
  | '4' => some 56 | '5' => some 57 | '6' => some 58 | '7' => some 59
  | '8' => some 60 | '9' => some 61 | '+' => some 62 | '/' => some 63
  | _ => none

/-- Standard base64 encoding of a byte list, three bytes to four
characters, with `=` padding, as `base64.b64encode` produces. -/
def b64EncodeList : List Nat → List Char
  | [] => []
  | [b1] =>
      [encodeSextet (b1 / 4), encodeSextet (b1 % 4 * 16), '=', '=']
  | [b1, b2] =>
      [encodeSextet (b1 / 4), encodeSextet (b1 % 4 * 16 + b2 / 16),
       encodeSextet (b2 % 16 * 4), '=']
  | b1 :: b2 :: b3 :: rest =>
      encodeSextet (b1 / 4) :: encodeSextet (b1 % 4 * 16 + b2 / 16) ::
      encodeSextet (b2 % 16 * 4 + b3 / 64) :: encodeSextet (b3 % 64) ::
      b64EncodeList rest

/-- Standard base64 decoding of a character list: four characters to
three bytes, with `=` padding allowed only in the final group; `none`
on any malformed input. -/
def b64DecodeList : List Char → Option (List Nat)
  | [] => some []
  | c1 :: c2 :: c3 :: c4 :: rest =>
    match decodeSextet c1, decodeSextet c2 with
    | some s1, some s2 =>
      if c3 = '=' then
        if c4 = '=' ∧ rest = [] then some [s1 * 4 + s2 / 16] else none
      else
        match decodeSextet c3 with
        | some s3 =>
          if c4 = '=' then
            if rest = [] then some [s1 * 4 + s2 / 16, s2 % 16 * 16 + s3 / 4]
            else none
          else
            match decodeSextet c4 with
            | some s4 =>
                (b64DecodeList rest).map
                  (fun bs => (s1 * 4 + s2 / 16) :: (s2 % 16 * 16 + s3 / 4) ::
                             (s3 % 4 * 64 + s4) :: bs)
            | none => none
        | none => none
    | _, _ => none
  | _ => none

/-- The base64-encoded text of a byte list, as a string. -/
def b64encode (bs : List Nat) : String :=
  String.mk (b64EncodeList bs)

/-- Base64 decoding of a string back to a byte list. -/
def b64decode (s : String) : Option (List Nat) :=
  b64DecodeList s.data

theorem decodeSextet_encodeSextet : ∀ n : Fin 64,
    decodeSextet (encodeSextet n.val) = some n.val := by decide

theorem encodeSextet_ne_pad : ∀ n : Fin 64, encodeSextet n.val ≠ '=' := by
  decide

theorem decodeSextet_encode_of_lt (n : Nat) (h : n < 64) :
    decodeSextet (encodeSextet n) = some n :=
  decodeSextet_encodeSextet ⟨n, h⟩

theorem encodeSextet_ne_pad_of_lt (n : Nat) (h : n < 64) :
    encodeSextet n ≠ '=' :=
  encodeSextet_ne_pad ⟨n, h⟩

/-- Induction along the three-byte chunking used by the base64 codec. -/
theorem threeChunkInduction (P : List Nat → Prop) (h0 : P [])
    (h1 : ∀ b, P [b]) (h2 : ∀ b c, P [b, c])
    (h3 : ∀ b c d rest, P rest → P (b :: c :: d :: rest)) :
    ∀ l, P l
  | [] => h0
  | [b] => h1 b
  | [b, c] => h2 b c
  | b :: c :: d :: rest =>
      h3 b c d rest (threeChunkInduction P h0 h1 h2 h3 rest)

/-- Decoding inverts encoding on any list of genuine bytes. -/
theorem b64DecodeList_b64EncodeList (bs : List Nat)
    (hb : ∀ b ∈ bs, b < 256) :
    b64DecodeList (b64EncodeList bs) = some bs := by
  induction bs using threeChunkInduction with
  | h0 => rfl
  | h1 b =>
      have hb1 : b < 256 := hb b (by simp)
      have e1 : b / 4 < 64 := by omega
      have e2 : b % 4 * 16 < 64 := by omega
      simp only [b64EncodeList, b64DecodeList,
        decodeSextet_encode_of_lt _ e1, decodeSextet_encode_of_lt _ e2]
      simp only [decide_True, decide_eq_true_eq, if_true, and_self, ite_true]
      simp
      omega
  | h2 b c =>
      have hb1 : b < 256 := hb b (by simp)
      have hb2 : c < 256 := hb c (by simp)
      have e1 : b / 4 < 64 := by omega
      have e2 : b % 4 * 16 + c / 16 < 64 := by omega
      have e3 : c % 16 * 4 < 64 := by omega
      simp only [b64EncodeList, b64DecodeList,
        decodeSextet_encode_of_lt _ e1, decodeSextet_encode_of_lt _ e2]
      rw [if_neg (encodeSextet_ne_pad_of_lt _ e3)]
      simp only [decodeSextet_encode_of_lt _ e3]
      simp
      constructor <;> omega
  | h3 b c d rest ih =>
      have hb1 : b < 256 := hb b (by simp)
      have hb2 : c < 256 := hb c (by simp)
      have hb3 : d < 256 := hb d (by simp)
      have e1 : b / 4 < 64 := by omega
      have e2 : b % 4 * 16 + c / 16 < 64 := by omega
      have e3 : c % 16 * 4 + d / 64 < 64 := by omega
      have e4 : d % 64 < 64 := by omega
      have hrest : ∀ x ∈ rest, x < 256 := fun x hx =>
        hb x (by simp [hx])
      simp only [b64EncodeList, b64DecodeList,
        decodeSextet_encode_of_lt _ e1, decodeSextet_encode_of_lt _ e2]
      rw [if_neg (encodeSextet_ne_pad_of_lt _ e3)]
      simp only [decodeSextet_encode_of_lt _ e3]
      rw [if_neg (encodeSextet_ne_pad_of_lt _ e4)]
      simp only [decodeSextet_encode_of_lt _ e4, ih hrest, Option.map_some]
      have hx : b / 4 * 4 + (b % 4 * 16 + c / 16) / 16 = b := by omega
      have hy : (b % 4 * 16 + c / 16) % 16 * 16 + (c % 16 * 4 + d / 64) / 4
          = c := by omega
      have hz : (c % 16 * 4 + d / 64) % 4 * 64 + d % 64 = d := by omega
      rw [hx, hy, hz]
      rfl

/-- String-level round trip for the base64 codec. -/
theorem b64decode_b64encode (bs : List Nat) (hb : ∀ b ∈ bs, b < 256) :
    b64decode (b64encode bs) = some bs :=
  b64DecodeList_b64EncodeList bs hb

/-- Zero-padding to two digits, as ISO-8601 rendering uses. -/
def pad2 (n : Nat) : String :=
  if n < 10 then "0" ++ toString n else toString n

/-- Zero-padding to four digits, for the year field. -/
def pad4 (n : Nat) : String :=
  if n < 10 then "000" ++ toString n
  else if n < 100 then "00" ++ toString n
  else if n < 1000 then "0" ++ toString n
  else toString n

/-- ISO-8601 date rendering `YYYY-MM-DD`. -/
def isoDate (y m d : Nat) : String :=
  pad4 y ++ "-" ++ pad2 m ++ "-" ++ pad2 d

/-- Python's class name of a value, as it appears in error messages. -/
def pyTypeName : PyVal → String
  | .vBytes _ => "bytes"
  | .vStr _ => "str"
  | .vInt _ => "int"
  | .vFloat _ => "float"
  | .vBool _ => "bool"
  | .vNone => "NoneType"
  | .vUuid _ => "UUID"
  | .vDate _ _ _ => "date"
  | .vDateTime _ _ _ _ _ _ => "datetime"
  | .vTuple _ => "tuple"
  | .vList _ => "list"

/-- Python's `str()` on the modelled values.  Strings render to
themselves, UUIDs to their canonical form, dates to ISO form and
datetimes with a space separator, exactly as CPython does; the container
and bytes renderings are placeholders that no modelled code path reads
(`serialise_result` only applies `str` under the "uuid", "date" and
"date_time" keys). -/
def pyStr : PyVal → String
  | .vStr s => s
  | .vUuid s => s
  | .vInt n => toString n
  | .vFloat s => s
  | .vBool b => if b then "True" else "False"
  | .vNone => "None"
  | .vDate y m d => isoDate y m d
  | .vDateTime y mo d h mi s =>
      isoDate y mo d ++ " " ++ pad2 h ++ ":" ++ pad2 mi ++ ":" ++ pad2 s
  | .vBytes _ => "<bytes>"
  | .vTuple _ => "<tuple>"
  | .vList _ => "<list>"

/-- Whether `hasattr(result, "isoformat")` holds: only date and datetime
objects among the modelled values carry that attribute. -/
def hasIsoformat : PyVal → Bool
  | .vDate _ _ _ => true
  | .vDateTime _ _ _ _ _ _ => true
  | _ => false

/-- The value of `result.isoformat()` on the values that have it
(`YYYY-MM-DD` for dates, `YYYY-MM-DDTHH:MM:SS` for datetimes); the
other branches are unreachable under `hasIsoformat`. -/
def isoformatOf : PyVal → String
  | .vDate y m d => isoDate y m d
  | .vDateTime y mo d h mi s =>
      isoDate y mo d ++ "T" ++ pad2 h ++ ":" ++ pad2 mi ++ ":" ++ pad2 s
  | _ => ""

/-- Python's `list(x)`: succeeds on the iterable values (lists, tuples,
strings — yielding one-character strings — and bytes — yielding
integers) and raises `TypeError: '<cls>' object is not iterable` on
everything else. -/
def pyToList : PyVal → Except PyException (List PyVal)
  | .vList xs => .ok xs
  | .vTuple xs => .ok xs
  | .vStr s => .ok (s.data.map (fun c => .vStr (String.mk [c])))
  | .vBytes bs => .ok (bs.map (fun b => .vInt (Int.ofNat b)))
  | v => .error ⟨"TypeError", "'" ++ pyTypeName v ++ "' object is not iterable"⟩

/-- Embedding of `serialise_result` (fakepy_mcp.py lines 83-114).
The Python function returns normally or raises; raising is the `.error`
arm.  The only partial operation in its body is `list(result)` in the
"latitude_longitude" branch. -/
def serialise_result (name : String) (result : PyVal) :
    Except PyException PyVal :=
  if name ∈ BINARY_FORMAT_NAMES then
    match result with
    | .vBytes bs => .ok (.vStr (b64encode bs))
    | _ => .ok result
  else if name = "uuid" then .ok (.vStr (pyStr result))
  else if name = "date" then
    .ok (.vStr (if hasIsoformat result then isoformatOf result
                else pyStr result))
  else if name = "date_time" then
    .ok (.vStr (if hasIsoformat result then isoformatOf result
                else pyStr result))
  else if name = "latitude_longitude" then
    match pyToList result with
    | .ok xs => .ok (.vList xs)
    | .error e => .error e
  else .ok result

/-- Written from the claim's words: the (name-keyed) serialisation rules
a (name, value) pair can match — binary-format base64 (which requires a
byte-sequence value), uuid, date, date_time, latitude_longitude. -/
def matches_rule (name : String) (v : PyVal) : Bool :=
  (decide (name ∈ BINARY_FORMAT_NAMES) &&
    (match v with | .vBytes _ => true | _ => false)) ||
  name == "uuid" || name == "date" || name == "date_time" ||
  name == "latitude_longitude"

/-- C2 counterexample: `serialise_result` does raise for the tool name
"latitude_longitude" when the value is not iterable — `list(result)` on
an integer raises a TypeError — so it is not true that for every tool
name and every value the function returns a result. -/
theorem serialise_result_raises_on_latlong :
    serialise_result "latitude_longitude" (PyVal.vInt 5) =
      Except.error ⟨"TypeError", "'int' object is not iterable"⟩ := by
  rfl

/-- C2 (amended): for every tool name other than "latitude_longitude",
`serialise_result` returns a result and never raises, and any
(name, value) pair that matches none of the name-keyed rules is passed
through verbatim; for "latitude_longitude" it returns a result exactly
when the value is iterable, and raises otherwise. -/
theorem serialise_result_total_except_latlong (name : String) (v : PyVal) :
    (matches_rule name v = false → serialise_result name v = .ok v) ∧
    (name ≠ "latitude_longitude" → ∃ r, serialise_result name v = .ok r) ∧
    (name = "latitude_longitude" →
      ((serialise_result name v).toOption.isSome ↔
        (pyToList v).toOption.isSome)) := by
  refine ⟨?_, ?_, ?_⟩
  · intro hm
    simp only [matches_rule, Bool.or_eq_false_iff, Bool.and_eq_false_iff,
      decide_eq_false_iff_not, beq_eq_false_iff_ne, ne_eq] at hm
    obtain ⟨⟨⟨⟨hab, hu⟩, hd⟩, hdt⟩, hll⟩ := hm
    by_cases hb : name ∈ BINARY_FORMAT_NAMES
    · simp only [serialise_result, if_pos hb]
      cases v with
      | vBytes bs =>
          rcases hab with h | h
          · exact absurd hb h
          · cases h
      | vStr s => rfl
      | vInt n => rfl
      | vFloat s => rfl
      | vBool b => rfl
      | vNone => rfl
      | vUuid s => rfl
      | vDate y m d => rfl
      | vDateTime y mo d h mi s => rfl
      | vTuple xs => rfl
      | vList xs => rfl
    · simp only [serialise_result]
      rw [if_neg hb, if_neg hu, if_neg hd, if_neg hdt, if_neg hll]
  · intro hll
    by_cases hb : name ∈ BINARY_FORMAT_NAMES
    · simp only [serialise_result, if_pos hb]
      cases v <;> exact ⟨_, rfl⟩
    · by_cases hu : name = "uuid"
      · simp only [serialise_result]
        rw [if_neg hb, if_pos hu]
        exact ⟨_, rfl⟩
      · by_cases hd : name = "date"
        · simp only [serialise_result]
          rw [if_neg hb, if_neg hu, if_pos hd]
          exact ⟨_, rfl⟩
        · by_cases hdt : name = "date_time"
          · simp only [serialise_result]
            rw [if_neg hb, if_neg hu, if_neg hd, if_pos hdt]
            exact ⟨_, rfl⟩
          · simp only [serialise_result]
            rw [if_neg hb, if_neg hu, if_neg hd, if_neg hdt, if_neg hll]
            exact ⟨_, rfl⟩
  · intro hll
    subst hll
    simp only [serialise_result]
    rw [if_neg (by decide), if_neg (by decide), if_neg (by decide),
      if_neg (by decide)]
    simp only [if_true, if_pos trivial]
    cases hpy : pyToList v <;> exact Iff.rfl

/-- Witness for the amended C2 theorem at concrete inputs. -/
theorem serialise_result_total_except_latlong_w :
    serialise_result "pyint" (PyVal.vInt 3) = .ok (PyVal.vInt 3) ∧
    (∃ r, serialise_result "fullname" (PyVal.vStr "Jo") = .ok r) :=
  ⟨(serialise_result_total_except_latlong "pyint" (PyVal.vInt 3)).1
      (by decide),
   (serialise_result_total_except_latlong "fullname" (PyVal.vStr "Jo")).2.1
      (by decide)⟩

/-- C8: for every byte list and every tool name in the fixed
binary-format set, `serialise_result` returns the standard base64 text
of the bytes, and base64-decoding that text returns the original bytes
exactly. -/
theorem serialise_binary_roundtrip (name : String) (bs : List Nat)
    (hname : name ∈ BINARY_FORMAT_NAMES) (hb : ∀ b ∈ bs, b < 256) :
    serialise_result name (.vBytes bs) = .ok (.vStr (b64encode bs)) ∧
    b64decode (b64encode bs) = some bs := by
  refine ⟨?_, b64decode_b64encode bs hb⟩
  simp [serialise_result, hname]

/-- Witness for the C8 theorem: the bytes of "hello" through "bmp". -/
theorem serialise_binary_roundtrip_w :
    serialise_result "bmp" (PyVal.vBytes [104, 101, 108, 108, 111]) =
      .ok (.vStr (b64encode [104, 101, 108, 108, 111])) ∧
    b64decode (b64encode [104, 101, 108, 108, 111]) =
      some [104, 101, 108, 108, 111] :=
  serialise_binary_roundtrip "bmp" [104, 101, 108, 108, 111]
    (by decide) (by decide)

/-- The argument-binding loop of `tool_fn` (fakepy_mcp.py lines
183-192), with `i` the `enumerate` counter: for the parameter at index
`i`, take the keyword argument of that name if supplied, else the
positional argument `args[i]` if `i < len(args)`, else the declared
default if any, else raise `TypeError` naming the parameter (`.error`).
The accumulated `call_kwargs` dict is the returned association list, in
loop order. -/
def bindArgsFrom (args : List PyVal) (kwargs : List (String × PyVal)) :
    List (String × Parameter) → Nat →
    Except String (List (String × PyVal))
  | [], _ => .ok []
  | (nm, pm) :: rest, i =>
    match kwargs.lookup nm with
    | some v => (bindArgsFrom args kwargs rest (i + 1)).map
        (fun ck => (nm, v) :: ck)
    | none =>
      match args.get? i with
      | some v => (bindArgsFrom args kwargs rest (i + 1)).map
          (fun ck => (nm, v) :: ck)
      | none =>
        match pm.default with
        | some d => (bindArgsFrom args kwargs rest (i + 1)).map
            (fun ck => (nm, d) :: ck)
        | none => .error nm

/-- The binding phase of `tool_fn`, started at index 0. -/
def bind_args (params : List (String × Parameter)) (args : List PyVal)
    (kwargs : List (String × PyVal)) :
    Except String (List (String × PyVal)) :=
  bindArgsFrom args kwargs params 0

/-- Resolution of one parameter as the amended claim states it: keyword
argument of the parameter's name first, then the positional argument at
the parameter's own index, then the declared default. -/
def resolve_param (args : List PyVal) (kwargs : List (String × PyVal))
    (i : Nat) (nm : String) (pm : Parameter) : Option PyVal :=
  match kwargs.lookup nm with
  | some v => some v
  | none =>
    match args.get? i with
    | some v => some v
    | none => pm.default

/-- The amended claim's binding algorithm: resolve each admissible
parameter in order by `resolve_param`, and fail at the first parameter
that resolves to nothing. -/
def bindSpecFrom (args : List PyVal) (kwargs : List (String × PyVal)) :
    List (String × Parameter) → Nat →
    Except String (List (String × PyVal))
  | [], _ => .ok []
  | (nm, pm) :: rest, i =>
    match resolve_param args kwargs i nm pm with
    | some v => (bindSpecFrom args kwargs rest (i + 1)).map
        (fun ck => (nm, v) :: ck)
    | none => .error nm

/-- The amended binding algorithm, started at index 0. -/
def bind_args_indexed (params : List (String × Parameter))
    (args : List PyVal) (kwargs : List (String × PyVal)) :
    Except String (List (String × PyVal)) :=
  bindSpecFrom args kwargs params 0

/-- The original claim's binding algorithm, read literally: priority (2)
takes the next *unconsumed* positional argument, so a parameter bound by
keyword leaves its positional argument available to later parameters.
`pos` is the remaining unconsumed positional-argument list. -/
def bindNextUnconsumed (kwargs : List (String × PyVal)) :
    List (String × Parameter) → List PyVal →
    Except String (List (String × PyVal))
  | [], _ => .ok []
  | (nm, pm) :: rest, pos =>
    match kwargs.lookup nm with
    | some v => (bindNextUnconsumed kwargs rest pos).map
        (fun ck => (nm, v) :: ck)
    | none =>
      match pos with
      | v :: pos2 => (bindNextUnconsumed kwargs rest pos2).map
          (fun ck => (nm, v) :: ck)
      | [] =>
        match pm.default with
        | some d => (bindNextUnconsumed kwargs rest []).map
            (fun ck => (nm, d) :: ck)
        | none => .error nm

/-- The claim's literal binding algorithm over the full argument list. -/
def bind_args_claim (params : List (String × Parameter))
    (args : List PyVal) (kwargs : List (String × PyVal)) :
    Except String (List (String × PyVal)) :=
  bindNextUnconsumed kwargs params args

/-- The two error kinds a synthesized wrapper can signal: the raw
`TypeError` from the binding loop (raised outside the try block) and the
uniform `RuntimeError` wrapping an underlying failure, each carrying its
message text. -/
inductive ToolError where
  | typeError : String → ToolError
  | runtimeError : String → ToolError
deriving DecidableEq, Repr

/-- Embedding of the synthesized wrapper `tool_fn` (fakepy_mcp.py lines
181-198) for a callable with a non-empty admissible parameter list.  The
underlying callable is a function from the keyword-argument dict to a
value or a raised exception.  The second component is the list of log
lines emitted (`LOGGER.error`).  The binding loop runs before the try
block, so its `TypeError` is signalled unwrapped and unlogged; the
underlying call and the result serialisation both run inside the try
block, whose handler logs and re-raises a `RuntimeError` carrying the
tool name and the original message. -/
def tool_fn (method : List (String × PyVal) → Except PyException PyVal)
    (attr : String) (params : List (String × Parameter))
    (args : List PyVal) (kwargs : List (String × PyVal)) :
    Except ToolError PyVal × List String :=
  match bind_args params args kwargs with
  | .error nm =>
      (.error (.typeError ("Missing required argument: " ++ nm)), [])
  | .ok call_kwargs =>
    match method call_kwargs with
    | .error e =>
        (.error (.runtimeError
            ("fake.py error in " ++ attr ++ "(): " ++ e.msg)),
         ["Error in " ++ attr ++ "(): " ++ e.msg])
    | .ok result =>
      match serialise_result attr result with
      | .error e =>
          (.error (.runtimeError
              ("fake.py error in " ++ attr ++ "(): " ++ e.msg)),
           ["Error in " ++ attr ++ "(): " ++ e.msg])
      | .ok v => (.ok v, [])

/-- Embedding of the zero-parameter wrapper variant (fakepy_mcp.py lines
215-221): no binding step, same try block around the call and the
serialisation. -/
def tool_fn_noparams (method : Except PyException PyVal) (attr : String) :
    Except ToolError PyVal × List String :=
  match method with
  | .error e =>
      (.error (.runtimeError
          ("fake.py error in " ++ attr ++ "(): " ++ e.msg)),
       ["Error in " ++ attr ++ "(): " ++ e.msg])
  | .ok result =>
    match serialise_result attr result with
    | .error e =>
        (.error (.runtimeError
            ("fake.py error in " ++ attr ++ "(): " ++ e.msg)),
         ["Error in " ++ attr ++ "(): " ++ e.msg])
    | .ok v => (.ok v, [])

theorem bindArgsFrom_eq_bindSpecFrom (args : List PyVal)
    (kwargs : List (String × PyVal)) :
    ∀ (params : List (String × Parameter)) (i : Nat),
      bindArgsFrom args kwargs params i = bindSpecFrom args kwargs params i := by
  intro params
  induction params with
  | nil => intro i; rfl
  | cons p rest ih =>
      intro i
      obtain ⟨nm, pm⟩ := p
      simp only [bindArgsFrom, bindSpecFrom, resolve_param]
      cases hk : kwargs.lookup nm with
      | some v => simp [ih]
      | none =>
        cases ha : args.get? i with
        | some v => simp [ih]
        | none =>
          cases hd : pm.default with
          | some d => simp [ih]
          | none => rfl

/-- A positional-or-keyword parameter of the given name, typed int,
with no default, for the concrete wrapper examples. -/
def reqIntParam (s : String) : Parameter :=
  { name := s, kind := .POSITIONAL_OR_KEYWORD, ann := some (.atom .aInt),
    default := none }

/-- The admissible parameter list of a callable with two required
parameters named "x" and "y". -/
def exParams : List (String × Parameter) :=
  [("x", reqIntParam "x"), ("y", reqIntParam "y")]

/-- C1 counterexample: calling a wrapper over required parameters
(x, y) with one positional argument 7 and the keyword argument x = 9.
Under the claim's literal binding rule the positional 7 is still
unconsumed when y is resolved, so binding succeeds with y = 7; the code
instead indexes positional arguments by parameter position, never reuses
the masked slot, and fails with "Missing required argument: y" — so the
claim's binding rule does not describe the wrapper. -/
theorem tool_fn_counterexample_next_unconsumed :
    bind_args_claim exParams [PyVal.vInt 7] [("x", PyVal.vInt 9)] =
      Except.ok [("x", PyVal.vInt 9), ("y", PyVal.vInt 7)] ∧
    tool_fn (fun _ => Except.ok (PyVal.vInt 0)) "pyint" exParams
        [PyVal.vInt 7] [("x", PyVal.vInt 9)] =
      (Except.error (ToolError.typeError "Missing required argument: y"),
       []) :=
  ⟨rfl, rfl⟩

/-- C1 (amended): each admissible parameter, in order, is bound by
priority — (1) a keyword argument matching its name, (2) the positional
argument at the parameter's own index (a keyword-bound earlier parameter
does not release its positional slot to later parameters), (3) its
declared default — and when none of these yields a value for a
no-default parameter, the wrapper fails with a missing-required-argument
TypeError naming the first such parameter, without the underlying
callable being invoked (the outcome is the same for any two underlying
callables). -/
theorem tool_fn_binding_by_index
    (method method2 : List (String × PyVal) → Except PyException PyVal)
    (attr : String) (params : List (String × Parameter))
    (args : List PyVal) (kwargs : List (String × PyVal)) :
    bind_args params args kwargs = bind_args_indexed params args kwargs ∧
    (match bind_args params args kwargs with
     | .error nm =>
         tool_fn method attr params args kwargs =
           (.error (.typeError ("Missing required argument: " ++ nm)), []) ∧
         tool_fn method attr params args kwargs =
           tool_fn method2 attr params args kwargs
     | .ok _ => True) := by
  refine ⟨bindArgsFrom_eq_bindSpecFrom args kwargs params 0, ?_⟩
  cases h : bind_args params args kwargs with
  | error nm => exact ⟨by simp [tool_fn, h], by simp [tool_fn, h]⟩
  | ok ck => trivial

theorem bindArgsFrom_names (args : List PyVal)
    (kwargs : List (String × PyVal)) :
    ∀ (params : List (String × Parameter)) (i : Nat)
      (ck : List (String × PyVal)),
      bindArgsFrom args kwargs params i = .ok ck →
      ck.map Prod.fst = params.map Prod.fst := by
  intro params
  induction params with
  | nil =>
      intro i ck h
      simp only [bindArgsFrom] at h
      cases h
      rfl
  | cons p rest ih =>
      intro i ck h
      obtain ⟨nm, pm⟩ := p
      simp only [bindArgsFrom] at h
      cases hk : kwargs.lookup nm with
      | some v =>
          rw [hk] at h
          cases hr : bindArgsFrom args kwargs rest (i + 1) with
          | error s => rw [hr] at h; cases h
          | ok ck2 =>
              rw [hr] at h
              cases h
              simp [ih (i + 1) ck2 hr]
      | none =>
          rw [hk] at h
          cases ha : args.get? i with
          | some v =>
              rw [ha] at h
              cases hr : bindArgsFrom args kwargs rest (i + 1) with
              | error s => rw [hr] at h; cases h
              | ok ck2 =>
                  rw [hr] at h
                  cases h
                  simp [ih (i + 1) ck2 hr]
          | none =>
              rw [ha] at h
              cases hd : pm.default with
              | some d =>
                  rw [hd] at h
                  cases hr : bindArgsFrom args kwargs rest (i + 1) with
                  | error s => rw [hr] at h; cases h
                  | ok ck2 =>
                      rw [hr] at h
                      cases h
                      simp [ih (i + 1) ck2 hr]
              | none => rw [hd] at h; cases h

theorem bindArgsFrom_take (args : List PyVal)
    (kwargs : List (String × PyVal)) :
    ∀ (params : List (String × Parameter)) (i n : Nat),
      i + params.length ≤ n →
      bindArgsFrom (args.take n) kwargs params i =
        bindArgsFrom args kwargs params i := by
  intro params
  induction params with
  | nil => intro i n _; rfl
  | cons p rest ih =>
      intro i n hn
      obtain ⟨nm, pm⟩ := p
      have hi : i < n := by
        simp only [List.length_cons] at hn
        omega
      have hrec := ih (i + 1) n (by
        simp only [List.length_cons] at hn
        omega)
      simp only [bindArgsFrom, List.get?_take hi, hrec]

theorem lookup_append_ne (k nm : String) (v : PyVal)
    (kwargs : List (String × PyVal)) (h : nm ≠ k) :
    (kwargs ++ [(k, v)]).lookup nm = kwargs.lookup nm := by
  induction kwargs with
  | nil =>
      have hbeq : (nm == k) = false := beq_eq_false_iff_ne.mpr h
      simp [List.lookup, hbeq]
  | cons p rest ih =>
      obtain ⟨a, b⟩ := p
      simp only [List.cons_append, List.lookup]
      cases nm == a <;> simp [ih]

theorem bindArgsFrom_kwargs_fresh (args : List PyVal)
    (kwargs : List (String × PyVal)) (k : String) (v : PyVal) :
    ∀ (params : List (String × Parameter)) (i : Nat),
      (∀ pr ∈ params, pr.fst ≠ k) →
      bindArgsFrom args (kwargs ++ [(k, v)]) params i =
        bindArgsFrom args kwargs params i := by
  intro params
  induction params with
  | nil => intro i _; rfl
  | cons p rest ih =>
      intro i hp
      obtain ⟨nm, pm⟩ := p
      have hnm : nm ≠ k := hp (nm, pm) (by simp)
      have hrest : ∀ pr ∈ rest, pr.fst ≠ k := fun pr hpr =>
        hp pr (by simp [hpr])
      simp only [bindArgsFrom, lookup_append_ne k nm v kwargs hnm,
        ih (i + 1) hrest]

/-- C9: the underlying callable only ever receives keyword arguments for
the admissible parameter names (in order); a supplied keyword argument
whose name is not among the admissible names, and any positional
argument beyond the number of admissible parameters, is silently
discarded without changing the binding outcome. -/
theorem tool_fn_discards_extras (params : List (String × Parameter))
    (args : List PyVal) (kwargs : List (String × PyVal)) (k : String)
    (v : PyVal) (hk : ∀ pr ∈ params, pr.fst ≠ k) :
    (∀ ck, bind_args params args kwargs = .ok ck →
        ck.map Prod.fst = params.map Prod.fst) ∧
    bind_args params (args.take params.length) kwargs =
      bind_args params args kwargs ∧
    bind_args params args (kwargs ++ [(k, v)]) =
      bind_args params args kwargs := by
  refine ⟨fun ck h => bindArgsFrom_names args kwargs params 0 ck h, ?_, ?_⟩
  · exact bindArgsFrom_take args kwargs params 0 params.length (by omega)
  · exact bindArgsFrom_kwargs_fresh args kwargs k v params 0 hk

/-- Witness for the C9 theorem: a wrapper over (x, y) ignores the extra
keyword "bogus" and the extra positional argument. -/
theorem tool_fn_discards_extras_w :
    bind_args exParams [PyVal.vInt 1, PyVal.vInt 2]
        ([("y", PyVal.vInt 5)] ++ [("bogus", PyVal.vInt 9)]) =
      bind_args exParams [PyVal.vInt 1, PyVal.vInt 2]
        [("y", PyVal.vInt 5)] ∧
    bind_args exParams
        ([PyVal.vInt 1, PyVal.vInt 2, PyVal.vInt 3].take exParams.length)
        [("y", PyVal.vInt 5)] =
      bind_args exParams [PyVal.vInt 1, PyVal.vInt 2, PyVal.vInt 3]
        [("y", PyVal.vInt 5)] := by
  constructor
  · exact (tool_fn_discards_extras exParams [PyVal.vInt 1, PyVal.vInt 2]
      [("y", PyVal.vInt 5)] "bogus" (PyVal.vInt 9) (by decide)).2.2
  · exact (tool_fn_discards_extras exParams
      [PyVal.vInt 1, PyVal.vInt 2, PyVal.vInt 3]
      [("y", PyVal.vInt 5)] "bogus" (PyVal.vInt 9) (by decide)).2.1

/-- C4: when the underlying callable raises, the wrapper produces
exactly one uniform RuntimeError carrying the tool name and the original
message text (and nothing of the original exception class), and logs the
tool name and message; the zero-parameter wrapper behaves identically. -/
theorem tool_fn_wraps_failures
    (method : List (String × PyVal) → Except PyException PyVal)
    (method0 : Except PyException PyVal) (attr : String)
    (params : List (String × Parameter)) (args : List PyVal)
    (kwargs : List (String × PyVal)) (ck : List (String × PyVal))
    (e e0 : PyException)
    (hb : bind_args params args kwargs = .ok ck)
    (hm : method ck = .error e) (hm0 : method0 = .error e0) :
    tool_fn method attr params args kwargs =
      (.error (.runtimeError
          ("fake.py error in " ++ attr ++ "(): " ++ e.msg)),
       ["Error in " ++ attr ++ "(): " ++ e.msg]) ∧
    tool_fn_noparams method0 attr =
      (.error (.runtimeError
          ("fake.py error in " ++ attr ++ "(): " ++ e0.msg)),
       ["Error in " ++ attr ++ "(): " ++ e0.msg]) := by
  constructor
  · simp [tool_fn, hb, hm]
  · simp [tool_fn_noparams, hm0]

/-- Witness for the C4 theorem: a ValueError "boom" from the underlying
callable reaches the caller as the uniform wrapped RuntimeError. -/
theorem tool_fn_wraps_failures_w :
    tool_fn (fun _ => Except.error ⟨"ValueError", "boom"⟩) "pyint" [] [] [] =
      (Except.error (ToolError.runtimeError "fake.py error in pyint(): boom"),
       ["Error in pyint(): boom"]) ∧
    tool_fn_noparams (Except.error ⟨"ValueError", "boom"⟩) "pyint" =
      (Except.error (ToolError.runtimeError "fake.py error in pyint(): boom"),
       ["Error in pyint(): boom"]) :=
  tool_fn_wraps_failures (fun _ => Except.error ⟨"ValueError", "boom"⟩)
    (Except.error ⟨"ValueError", "boom"⟩) "pyint" [] [] [] []
    ⟨"ValueError", "boom"⟩ ⟨"ValueError", "boom"⟩ rfl rfl rfl

/-- C10: result serialisation runs inside the same try block as the
underlying call, so when `serialise_result` raises on the returned
value, the caller receives the very same uniform wrapped RuntimeError
shape as for an underlying-callable failure. -/
theorem tool_fn_catches_serialise_errors
    (method : List (String × PyVal) → Except PyException PyVal)
    (attr : String) (params : List (String × Parameter))
    (args : List PyVal) (kwargs : List (String × PyVal))
    (ck : List (String × PyVal)) (r : PyVal) (e : PyException)
    (hb : bind_args params args kwargs = .ok ck)
    (hm : method ck = .ok r)
    (hs : serialise_result attr r = .error e) :
    tool_fn method attr params args kwargs =
      (.error (.runtimeError
          ("fake.py error in " ++ attr ++ "(): " ++ e.msg)),
       ["Error in " ++ attr ++ "(): " ++ e.msg]) := by
  simp [tool_fn, hb, hm, hs]

/-- Witness for the C10 theorem: the tool "latitude_longitude" returning
a non-iterable integer makes the serialiser raise, and the caller sees
the wrapped RuntimeError. -/
theorem tool_fn_catches_serialise_errors_w :
    tool_fn (fun _ => Except.ok (PyVal.vInt 5)) "latitude_longitude"
        [] [] [] =
      (Except.error (ToolError.runtimeError
          "fake.py error in latitude_longitude(): 'int' object is not iterable"),
       ["Error in latitude_longitude(): 'int' object is not iterable"]) :=
  tool_fn_catches_serialise_errors (fun _ => Except.ok (PyVal.vInt 5))
    "latitude_longitude" [] [] [] [] (PyVal.vInt 5)
    ⟨"TypeError", "'int' object is not iterable"⟩ rfl rfl rfl

/-- Modelled from the spec: the registration state and the dedup test of
`register_fakepy_tools` (fakepy_mcp.py lines 158-167).  The dispatcher
(`MCP`, the external FastMCP collaborator) is modelled as the list of
registered tool names in registration order; `MCP.tool(name=attr)(fn)`
appends the name, and — per the specification's "skip if a tool of that
name is already registered" and the repository's own tests, which assert
`hasattr(MCP, tool_name)` for every registered tool — `hasattr(MCP,
attr)` is membership in that list.  `fc attr` models
`callable(getattr(FAKER, attr))`. -/
def register_pass (fc : String → Bool) :
    List String → List String → List String
  | [], tools => tools
  | attr :: rest, tools =>
    if py_startswith attr "_" then register_pass fc rest tools
    else if fc attr = false then register_pass fc rest tools
    else if attr ∈ tools then register_pass fc rest tools
    else register_pass fc rest (tools ++ [attr])

theorem register_pass_mem_mono (fc : String → Bool) :
    ∀ (pl tools : List String) (n : String), n ∈ tools →
      n ∈ register_pass fc pl tools := by
  intro pl
  induction pl with
  | nil => intro tools n h; exact h
  | cons attr rest ih =>
      intro tools n h
      simp only [register_pass]
      split_ifs with h1 h2 h3
      · exact ih tools n h
      · exact ih tools n h
      · exact ih tools n h
      · exact ih (tools ++ [attr]) n (by simp [h])

theorem register_pass_mem_of_qualifying (fc : String → Bool) :
    ∀ (pl tools : List String) (n : String), n ∈ pl →
      py_startswith n "_" = false → fc n = true →
      n ∈ register_pass fc pl tools := by
  intro pl
  induction pl with
  | nil => intro tools n h; cases h
  | cons attr rest ih =>
      intro tools n hmem hus hfc
      simp only [register_pass]
      rcases List.mem_cons.mp hmem with rfl | hrest
      · rw [if_neg (by simp [hus]), if_neg (by simp [hfc])]
        by_cases ht : n ∈ tools
        · rw [if_pos ht]
          exact register_pass_mem_mono fc rest tools n ht
        · rw [if_neg ht]
          exact register_pass_mem_mono fc rest (tools ++ [n]) n (by simp)
      · split_ifs with h1 h2 h3
        · exact ih tools n hrest hus hfc
        · exact ih tools n hrest hus hfc
        · exact ih tools n hrest hus hfc
        · exact ih (tools ++ [attr]) n hrest hus hfc

theorem register_pass_no_new (fc : String → Bool) :
    ∀ (pl tools : List String),
      (∀ a ∈ pl, py_startswith a "_" = false → fc a = true → a ∈ tools) →
      register_pass fc pl tools = tools := by
  intro pl
  induction pl with
  | nil => intro tools _; rfl
  | cons attr rest ih =>
      intro tools hall
      have hrest : ∀ a ∈ rest, py_startswith a "_" = false → fc a = true →
          a ∈ tools := fun a ha => hall a (by simp [ha])
      simp only [register_pass]
      split_ifs with h1 h2 h3
      · exact ih tools hrest
      · exact ih tools hrest
      · exact ih tools hrest
      · exact absurd (hall attr (by simp)
          (by cases hu : py_startswith attr "_" with
              | true => exact absurd hu h1
              | false => rfl)
          (by cases hf : fc attr with
              | true => rfl
              | false => exact absurd hf h2)) h3

theorem register_pass_idem (fc : String → Bool) (pl tools : List String) :
    register_pass fc pl (register_pass fc pl tools) =
      register_pass fc pl tools := by
  apply register_pass_no_new
  intro a ha hus hfc
  exact register_pass_mem_of_qualifying fc pl tools a ha hus hfc

theorem register_pass_count (fc : String → Bool) :
    ∀ (pl tools : List String) (n : String),
      (register_pass fc pl tools).count n =
        tools.count n +
          (if n ∉ tools ∧ n ∈ pl ∧ py_startswith n "_" = false ∧ fc n = true
           then 1 else 0) := by
  intro pl
  induction pl with
  | nil => intro tools n; simp [register_pass]
  | cons attr rest ih =>
      intro tools n
      by_cases h1 : py_startswith attr "_" = true
      · have hstep : register_pass fc (attr :: rest) tools =
            register_pass fc rest tools := by
          simp [register_pass, h1]
        rw [hstep, ih tools n]
        congr 1
        refine if_congr ⟨?_, ?_⟩ rfl rfl
        · rintro ⟨ht, hm, hus, hfc⟩
          exact ⟨ht, List.mem_cons.mpr (Or.inr hm), hus, hfc⟩
        · rintro ⟨ht, hm, hus, hfc⟩
          rcases List.mem_cons.mp hm with rfl | hm2
          · rw [hus] at h1; cases h1
          · exact ⟨ht, hm2, hus, hfc⟩
      · by_cases h2 : fc attr = true
        · by_cases h3 : attr ∈ tools
          · have hstep : register_pass fc (attr :: rest) tools =
                register_pass fc rest tools := by
              simp [register_pass, h1, h2, h3]
            rw [hstep, ih tools n]
            congr 1
            refine if_congr ⟨?_, ?_⟩ rfl rfl
            · rintro ⟨ht, hm, hus, hfc⟩
              exact ⟨ht, List.mem_cons.mpr (Or.inr hm), hus, hfc⟩
            · rintro ⟨ht, hm, hus, hfc⟩
              rcases List.mem_cons.mp hm with rfl | hm2
              · exact absurd h3 ht
              · exact ⟨ht, hm2, hus, hfc⟩
          · have hstep : register_pass fc (attr :: rest) tools =
                register_pass fc rest (tools ++ [attr]) := by
              simp [register_pass, h1, h2, h3]
            rw [hstep, ih (tools ++ [attr]) n]
            by_cases hn : n = attr
            · subst hn
              have hus : py_startswith n "_" = false := by
                cases hu : py_startswith n "_" with
                | true => exact absurd hu h1
                | false => rfl
              have hmem : n ∈ tools ++ [n] := by simp
              rw [if_neg (fun hc => hc.1 hmem),
                if_pos ⟨h3, List.mem_cons_self _ _, hus, h2⟩]
              simp [List.count_append]
            · have hcnt : (tools ++ [attr]).count n = tools.count n := by
                simp [List.count_append, List.count_cons, hn]
              have hmem2 : (n ∈ tools ++ [attr]) ↔ n ∈ tools := by
                simp [hn]
              rw [hcnt]
              congr 1
              refine if_congr ⟨?_, ?_⟩ rfl rfl
              · rintro ⟨ht, hm, hus, hfc⟩
                exact ⟨fun hc => ht (hmem2.mpr hc),
                  List.mem_cons.mpr (Or.inr hm), hus, hfc⟩
              · rintro ⟨ht, hm, hus, hfc⟩
                rcases List.mem_cons.mp hm with rfl | hm2
                · exact absurd rfl hn
                · exact ⟨fun hc => ht (hmem2.mp hc), hm2, hus, hfc⟩
        · have hstep : register_pass fc (attr :: rest) tools =
              register_pass fc rest tools := by
            have hfc0 : fc attr = false := by
              cases hf : fc attr with
              | true => exact absurd hf h2
              | false => rfl
            simp [register_pass, h1, hfc0]
          rw [hstep, ih tools n]
          congr 1
          refine if_congr ⟨?_, ?_⟩ rfl rfl
          · rintro ⟨ht, hm, hus, hfc⟩
            exact ⟨ht, List.mem_cons.mpr (Or.inr hm), hus, hfc⟩
          · rintro ⟨ht, hm, hus, hfc⟩
            rcases List.mem_cons.mp hm with rfl | hm2
            · exact absurd hfc h2
            · exact ⟨ht, hm2, hus, hfc⟩

/-- C3: running the full registration pass twice from an empty registry
registers each qualifying name exactly once — the second pass changes
nothing, the resulting tool names are unique, and a name is registered
(once) iff it is a listed, non-underscore, callable attribute. -/
theorem register_pass_twice_once (fc : String → Bool) (pl : List String) :
    register_pass fc pl (register_pass fc pl []) =
      register_pass fc pl [] ∧
    (register_pass fc pl (register_pass fc pl [])).Nodup ∧
    (∀ n, (register_pass fc pl (register_pass fc pl [])).count n =
      if n ∈ pl ∧ py_startswith n "_" = false ∧ fc n = true then 1 else 0) := by
  have hidem := register_pass_idem fc pl []
  have hcount : ∀ n, (register_pass fc pl []).count n =
      if n ∈ pl ∧ py_startswith n "_" = false ∧ fc n = true then 1 else 0 := by
    intro n
    rw [register_pass_count fc pl [] n]
    simp
  refine ⟨hidem, ?_, ?_⟩
  · rw [hidem]
    rw [List.nodup_iff_count_le_one]
    intro a
    rw [hcount a]
    split_ifs <;> omega
  · intro n
    rw [hidem]
    exact hcount n

end FakePyMcp
